import Mathlib

/-!
# Verification of the tictoc account/session core (src/main.rs)

Shallow embedding of the Rust service in `src/main.rs`:

* the database table `users(id, name, email, password_hash)` is a
  `List User` (rows in insertion order, as Postgres returns them for the
  queries at hand);
* `create_user`, `read_user` and `login` are the three axum handlers,
  embedded as pure state-passing functions `Db → ... → Db × result`;
* bcrypt (`bcrypt::hash`, `bcrypt::verify`) is embedded structurally: a
  hash string is the MCF-style text `$2b$<cost>$<salt>$<digest>`, where the
  digest is produced by an abstract key-derivation core
  `eks : Nat → String → String → String` (cost, salt, password); `verify`
  re-parses the stored string, re-derives the digest with the stored cost
  and salt and compares, returning `none` (an error, which the Rust code
  `unwrap`s) on a structurally malformed hash string;
* the JWT issued by `login` (`jsonwebtoken::encode`) is a three-part
  `Token` (header, claims, signature); the HMAC-SHA-256 primitive is an
  abstract `mac : String → String → String` (key, message);
* a handler result of `none` models the process-aborting `.unwrap()` on an
  `Err` value in the Rust source.

The identity column is assigned by the Postgres schema (the migration files
are not part of `src/`); following the spec, the next id is the current row
count plus one, starting at 1.
-/

/-- Mirrors the Rust `User` struct (src/main.rs lines 11-17).  The Rust
`id` field has type `i32`; it is embedded as `Int`, with the declared bit
width recorded in `idBitWidth`. -/
structure User where
  id : Int
  name : String
  email : String
  password_hash : String
  deriving Repr, DecidableEq

/-- The bit width of the `id` field of the Rust `User` struct: `i32`,
a 32-bit signed integer (src/main.rs line 13). -/
def idBitWidth : Nat := 32

/-- Mirrors the Rust `CreateUserRequest` struct (src/main.rs lines 24-29). -/
structure CreateUserRequest where
  name : String
  email : String
  password : String
  deriving Repr, DecidableEq

/-- Mirrors the Rust `CreateUserResponse` struct (src/main.rs lines 31-36):
the public projection of an account, without the password hash.  Also the
claims carried by the session token. -/
structure CreateUserResponse where
  id : Int
  name : String
  email : String
  deriving Repr, DecidableEq

/-- The public projection `{id, name, email}` of a stored account row, as
selected by `SELECT id, name, email` in src/main.rs. -/
def publicView (u : User) : CreateUserResponse :=
  ⟨u.id, u.name, u.email⟩

/-- The database state: the rows of the `users` table in insertion order. -/
abbrev Db := List User

/-! ## bcrypt: MCF hash strings, hashing and verification -/

/-- A parsed bcrypt hash: cost factor, salt and digest. -/
structure BcryptHash where
  cost : Nat
  salt : String
  digest : String
  deriving Repr, DecidableEq

/-- Serialize a bcrypt hash in MCF style: `$2b$<cost>$<salt>$<digest>`. -/
def mcfEncode (cost : Nat) (salt digest : String) : String :=
  "$2b$" ++ toString cost ++ "$" ++ salt ++ "$" ++ digest

/-- Split a character list at every `$`. -/
def splitDollar : List Char → List (List Char)
  | [] => [[]]
  | c :: cs =>
    if c = '$' then [] :: splitDollar cs
    else
      match splitDollar cs with
      | [] => [[c]]
      | h :: t => (c :: h) :: t

/-- Parse a decimal digit. -/
def digitVal (c : Char) : Option Nat :=
  if '0' ≤ c ∧ c ≤ '9' then some (c.toNat - 48) else none

/-- Accumulate decimal digits into a number; `none` on a non-digit. -/
def parseNatAux : Nat → List Char → Option Nat
  | acc, [] => some acc
  | acc, c :: cs =>
    match digitVal c with
    | some d => parseNatAux (acc * 10 + d) cs
    | none => none

/-- Parse a non-empty decimal numeral. -/
def parseNatChars (l : List Char) : Option Nat :=
  match l with
  | [] => none
  | _ => parseNatAux 0 l

/-- Parse an MCF bcrypt hash string; `none` if the string is structurally
malformed (the Rust `bcrypt::verify` returns `Err` in that case). -/
def parseMcf (h : String) : Option BcryptHash :=
  match splitDollar h.data with
  | [[], ['2', 'b'], cpart, spart, dpart] =>
    match parseNatChars cpart with
    | some c => some ⟨c, ⟨spart⟩, ⟨dpart⟩⟩
    | none => none
  | _ => none

/-- `bcrypt::hash(password, cost)`: derive the digest from cost, salt and
password with the abstract EKS core and serialize.  The salt is an explicit
input, standing for the randomly drawn salt. -/
def bcryptHash (eks : Nat → String → String → String) (cost : Nat)
    (salt password : String) : String :=
  mcfEncode cost salt (eks cost salt password)

/-- `bcrypt::verify(password, stored)`: parse the stored hash, re-derive the
digest with the stored cost and salt, compare.  `none` models the `Err`
returned on a malformed stored hash (which src/main.rs line 95 `unwrap`s,
aborting the process). -/
def bcryptVerify (eks : Nat → String → String → String)
    (password stored : String) : Option Bool :=
  match parseMcf stored with
  | some bh => some (bh.digest = eks bh.cost bh.salt password)
  | none => none

/-! ## JWT: token structure, issue and verify -/

/-- A session token: the three-part signed structure produced by
`jsonwebtoken::encode` — header, claims and signature. -/
structure Token where
  header : String
  claims : CreateUserResponse
  signature : String
  deriving Repr, DecidableEq

/-- `Header::default()` of the jsonwebtoken crate: algorithm HS256. -/
def defaultHeader : String := "\x7b\"typ\":\"JWT\",\"alg\":\"HS256\"\x7d"

/-- The claims segment of the token as serialized key/value pairs: exactly
the three fields of `CreateUserResponse` (serde derives the serializer from
the struct, so no other claim — in particular no `exp` or `iat` — can
appear). -/
def claimsJson (c : CreateUserResponse) : List (String × String) :=
  [("id", toString c.id), ("name", c.name), ("email", c.email)]

/-- The byte string that is signed: header and serialized claims. -/
def signingInput (header : String) (c : CreateUserResponse) : String :=
  header ++ "." ++
    String.intercalate ","
      ((claimsJson c).map (fun kv => kv.1 ++ "=" ++ kv.2))

/-- `jsonwebtoken::encode(&Header::default(), claims, key)`: build the
three-part token, signing with the abstract HMAC-SHA-256 `mac`. -/
def jwtEncode (mac : String → String → String) (key : String)
    (c : CreateUserResponse) : Token :=
  ⟨defaultHeader, c, mac key (signingInput defaultHeader c)⟩

/-- `jsonwebtoken::decode`: recompute the signature over the token's header
and claims with the given key; return the claims iff it matches. -/
def jwtVerify (mac : String → String → String) (key : String)
    (t : Token) : Option CreateUserResponse :=
  if t.signature = mac key (signingInput t.header t.claims) then
    some t.claims
  else none

/-! ## The three handlers -/

/-- JSON rendering of one public account row, exactly as serde_json emits
it for `CreateUserResponse`. -/
def userJson (u : CreateUserResponse) : String :=
  "\x7b\"id\":" ++ toString u.id ++ ",\"name\":\"" ++ u.name ++
    "\",\"email\":\"" ++ u.email ++ "\"\x7d"

/-- JSON rendering of a list of public account rows. -/
def usersJson (l : List CreateUserResponse) : String :=
  "[" ++ String.intercalate "," (l.map userJson) ++ "]"

/-- Insert a row into a list sorted ascending by `id`. -/
def insertById (u : User) : List User → List User
  | [] => [u]
  | v :: vs => if u.id ≤ v.id then u :: v :: vs else v :: insertById u vs

/-- Sort rows ascending by `id` — the `ORDER BY id` of the SELECT in
`read_user` (src/main.rs line 52). -/
def sortById : List User → List User
  | [] => []
  | u :: us => insertById u (sortById us)

/-- The rows produced by `SELECT id, name, email FROM users ORDER BY id`:
all rows, sorted ascending by id, projected to the public view. -/
def readUserViews (db : Db) : List CreateUserResponse :=
  (sortById db).map publicView

/-- The `read_user` handler (src/main.rs lines 49-59): list all accounts
ordered by id and serialize them.  The database is returned unchanged (the
handler only runs a SELECT). -/
def read_user (db : Db) : Db × String :=
  (db, usersJson (readUserViews db))

/-- Modelled from the spec: the identity assigned to a new row.  The id
column is auto-assigned by the Postgres schema, whose migration files are
not under `src/`; per the spec, ids are assigned monotonically starting
at 1 within one store instance — the next identity is the count of
accounts currently held plus one. -/
def nextId (db : Db) : Int :=
  (db.length : Int) + 1

/-- The `create_user` handler (src/main.rs lines 61-79): hash the password
with bcrypt at cost 10, INSERT the row (the database assigns the next id)
and return the public projection of the new row. -/
def create_user (eks : Nat → String → String → String) (db : Db)
    (salt : String) (req : CreateUserRequest) : Db × CreateUserResponse :=
  let password_hash := bcryptHash eks 10 salt req.password
  let u : User := ⟨nextId db, req.name, req.email, password_hash⟩
  (db ++ [u], publicView u)

/-- The three outcomes of the `login` handler: the strings
`"User not found"` and `"Invalid password"`, or the serialized token. -/
inductive LoginOutcome where
  | notFound
  | invalidPassword
  | token (t : Token)
  deriving Repr, DecidableEq

/-- `SELECT ... FROM users WHERE email = $1` with `fetch_optional`: the
first row whose email matches, if any. -/
def findByEmail (db : Db) (email : String) : Option User :=
  db.find? (fun u => u.email = email)

/-- The `login` handler (src/main.rs lines 81-117): look the account up by
email; absent → "User not found"; present → verify the password with
bcrypt (a malformed stored hash makes `verify` fail and the `.unwrap()` on
line 95 abort the process, modelled by `none`); mismatch → "Invalid
password"; match → issue a JWT over the public view, signed with the
hard-coded secret `"secret"`.  The database is returned unchanged (the
handler only runs a SELECT). -/
def login (mac : String → String → String)
    (eks : Nat → String → String → String) (db : Db)
    (email password : String) : Db × Option LoginOutcome :=
  match findByEmail db email with
  | none => (db, some .notFound)
  | some u =>
    match bcryptVerify eks password u.password_hash with
    | none => (db, none)
    | some false => (db, some .invalidPassword)
    | some true =>
      (db, some (.token (jwtEncode mac "secret" (publicView u))))

/-- A sequence of `create_user` calls: each element of `reqs` carries the
request and the salt drawn for it.  Returns the final database and the
responses in call order. -/
def runCreates (eks : Nat → String → String → String) :
    List (CreateUserRequest × String) → Db → Db × List CreateUserResponse
  | [], db => (db, [])
  | (r, salt) :: rest, db =>
    let step := create_user eks db salt r
    let tail := runCreates eks rest step.1
    (tail.1, step.2 :: tail.2)

/-! ## Concrete instantiations used by the witnesses -/

/-- A concrete EKS core: the identity on the password. -/
def eks0 : Nat → String → String → String := fun _ _ p => p

/-- A concrete MAC: the identity on the message. -/
def mac0 : String → String → String := fun _ m => m

/-- A one-account database: Chad, with the bcrypt hash of "password" at
cost 10 under salt "s" and the EKS core `eks0`. -/
def db0 : Db := [⟨1, "Chad", "chad@gmail.com", "$2b$10$s$password"⟩]

/-! ## Lemmas about `splitDollar` and `parseMcf` -/

lemma splitDollar_ne_nil : ∀ l : List Char, splitDollar l ≠ []
  | [] => by simp [splitDollar]
  | c :: cs => by
    rcases h : splitDollar cs with _ | ⟨x, xs⟩
    · exact absurd h (splitDollar_ne_nil cs)
    · by_cases hc : c = '$' <;> simp [splitDollar, hc, h]

lemma splitDollar_cons_dollar (l : List Char) :
    splitDollar ('$' :: l) = [] :: splitDollar l := by
  simp [splitDollar]

lemma splitDollar_cons_ne (c : Char) (hc : c ≠ '$') (l : List Char) :
    splitDollar (c :: l) =
      (c :: (splitDollar l).headI) :: (splitDollar l).tail := by
  rcases h : splitDollar l with _ | ⟨x, xs⟩
  · exact absurd h (splitDollar_ne_nil l)
  · simp [splitDollar, hc, h]

lemma splitDollar_no_dollar : ∀ l : List Char, '$' ∉ l → splitDollar l = [l]
  | [], _ => rfl
  | c :: cs, h => by
    have hc : c ≠ '$' := fun e => h (e ▸ List.mem_cons_self c cs)
    have ih := splitDollar_no_dollar cs (fun m => h (List.mem_cons_of_mem c m))
    rw [splitDollar_cons_ne c hc, ih]
    simp

lemma splitDollar_append (xs ys : List Char) (h : '$' ∉ xs) :
    splitDollar (xs ++ '$' :: ys) = xs :: splitDollar ys := by
  induction xs with
  | nil => simpa using splitDollar_cons_dollar ys
  | cons c cs ih =>
    have hc : c ≠ '$' := fun e => h (e ▸ List.mem_cons_self c cs)
    have ih' := ih (fun m => h (List.mem_cons_of_mem c m))
    rw [List.cons_append, splitDollar_cons_ne c hc, ih']
    simp

lemma mcfEncode_data (salt digest : String) :
    (mcfEncode 10 salt digest).data =
      '$' :: (['2', 'b'] ++ '$' :: (['1', '0'] ++ '$' ::
        (salt.data ++ '$' :: digest.data))) := by
  simp [mcfEncode, String.data_append]
  rfl

/-- Round trip: a hash serialized at cost 10 parses back to its parts, as
long as neither salt nor digest contains the `$` separator (true of real
bcrypt, whose salt and digest are base64 text). -/
lemma parseMcf_mcfEncode (salt digest : String)
    (hs : '$' ∉ salt.data) (hd : '$' ∉ digest.data) :
    parseMcf (mcfEncode 10 salt digest) = some ⟨10, salt, digest⟩ := by
  have h1 : splitDollar (mcfEncode 10 salt digest).data =
      [[], ['2', 'b'], ['1', '0'], salt.data, digest.data] := by
    rw [mcfEncode_data, splitDollar_cons_dollar,
      splitDollar_append ['2', 'b'] _ (by decide),
      splitDollar_append ['1', '0'] _ (by decide),
      splitDollar_append salt.data _ hs,
      splitDollar_no_dollar digest.data hd]
  rw [parseMcf, h1]
  rfl

/-- Verifying a password against its own cost-10 bcrypt hash succeeds. -/
lemma bcryptVerify_hash_self (eks : Nat → String → String → String)
    (salt p : String) (hs : '$' ∉ salt.data)
    (hd : '$' ∉ (eks 10 salt p).data) :
    bcryptVerify eks p (bcryptHash eks 10 salt p) = some true := by
  rw [bcryptHash, bcryptVerify, parseMcf_mcfEncode _ _ hs hd]
  simp

/-! ## Lemmas about `runCreates` and `sortById` -/

/-- Characterization of a run of `create_user` calls: the final database is
the initial one followed by the new rows; the responses are exactly the
public views of the new rows, in creation order; the new ids count up from
(initial length) + 1. -/
lemma runCreates_spec (eks : Nat → String → String → String) :
    ∀ (reqs : List (CreateUserRequest × String)) (db : Db),
    ∃ new : Db,
      (runCreates eks reqs db).1 = db ++ new ∧
      (runCreates eks reqs db).2 = new.map publicView ∧
      new.map (·.id) =
        (List.range' (db.length + 1) reqs.length).map (fun n : Nat => (n : Int))
  | [], db => ⟨[], by simp [runCreates]⟩
  | (r, salt) :: rest, db => by
    obtain ⟨new, h1, h2, h3⟩ :=
      runCreates_spec eks rest
        (db ++ [⟨nextId db, r.name, r.email, bcryptHash eks 10 salt r.password⟩])
    simp only [List.length_append, List.length_cons, List.length_nil] at h3
    refine ⟨⟨nextId db, r.name, r.email,
      bcryptHash eks 10 salt r.password⟩ :: new, ?_, ?_, ?_⟩
    · simp only [runCreates, create_user]
      rw [h1]
      simp
    · simp only [runCreates, create_user]
      rw [h2]
      simp [publicView]
    · simp only [List.map_cons, List.length_cons, List.range'_succ _ _ 1]
      rw [h3]
      rfl

lemma insertById_cons_le (u v : User) (vs : List User) (h : u.id ≤ v.id) :
    insertById u (v :: vs) = u :: v :: vs := by
  simp [insertById, h]

/-- Sorting by id is the identity on a list already sorted by id. -/
lemma sortById_of_sorted :
    ∀ l : List User, List.Chain' (fun a b => a.id ≤ b.id) l → sortById l = l
  | [], _ => rfl
  | [u], _ => by simp [sortById, insertById]
  | u :: v :: vs, h => by
    rw [List.chain'_cons] at h
    have ih := sortById_of_sorted (v :: vs) h.2
    show insertById u (sortById (v :: vs)) = u :: v :: vs
    rw [ih, insertById_cons_le u v vs h.1]

/-- The integer casts of `range' s n` are pairwise strictly increasing. -/
lemma pairwise_lt_castMap (s n : Nat) :
    ((List.range' s n).map (fun k : Nat => (k : Int))).Pairwise (· < ·) :=
  (List.pairwise_lt_range' s n 1).map _ (fun a b hab => by exact_mod_cast hab)

lemma chain'_lt_castMap (s n : Nat) :
    List.Chain' (fun a b : Int => a < b)
      ((List.range' s n).map (fun k : Nat => (k : Int))) :=
  List.chain'_iff_pairwise.mpr (pairwise_lt_castMap s n)

lemma nodup_castMap (s n : Nat) :
    ((List.range' s n).map (fun k : Nat => (k : Int))).Nodup :=
  List.Nodup.map (fun a b h => by exact_mod_cast h) (List.nodup_range' s n 1)

/-- In a database whose emails are pairwise distinct, two rows with the
same email are the same row. -/
lemma email_unique {db : Db}
    (h : db.Pairwise (fun a b => a.email ≠ b.email)) {u v : User}
    (hu : u ∈ db) (hv : v ∈ db) (he : u.email = v.email) : u = v := by
  by_contra hne
  have hsym : Symmetric (fun a b : User => a.email ≠ b.email) :=
    fun a b hab e => hab e.symm
  exact List.Pairwise.forall hsym h hu hv hne he

/-! ## Claim theorems -/

/-- C2 (amended — the id column is 32-bit, not 64-bit): for every sequence
of successful register calls against one (initially empty) store instance,
the returned ids are exactly 1, 2, ..., n in call order — strictly
increasing starting at 1, no gaps, no repeats — and the rows held by the
store keep exactly those ids (an id, once assigned, is never reused or
mutated); the id field is a 32-bit integer (`i32`). -/
theorem register_ids_consecutive (eks : Nat → String → String → String)
    (reqs : List (CreateUserRequest × String)) :
    (runCreates eks reqs []).2.map (·.id)
        = (List.range' 1 reqs.length).map (fun n : Nat => (n : Int))
    ∧ (runCreates eks reqs []).1.map (·.id)
        = (List.range' 1 reqs.length).map (fun n : Nat => (n : Int))
    ∧ ((runCreates eks reqs []).2.map (·.id)).Nodup
    ∧ List.Chain' (fun a b : Int => a < b)
        ((runCreates eks reqs []).2.map (·.id))
    ∧ idBitWidth = 32 := by
  obtain ⟨new, h1, h2, h3⟩ := runCreates_spec eks reqs []
  simp only [List.length_nil, Nat.zero_add] at h3
  have hids : (runCreates eks reqs []).2.map (·.id) = new.map (·.id) := by
    rw [h2, List.map_map]
    rfl
  have hall : (runCreates eks reqs []).1 = new := by
    rw [h1]
    rfl
  refine ⟨?_, ?_, ?_, ?_, rfl⟩
  · rw [hids, h3]
  · rw [hall, h3]
  · rw [hids, h3]
    exact nodup_castMap 1 reqs.length
  · rw [hids, h3]
    exact chain'_lt_castMap 1 reqs.length

/-- C2, counterexample to the claim as stated: the claim calls the ids
64-bit integers, but the `id` field of the `User` struct in src/main.rs is
`i32`, a 32-bit integer. -/
theorem id_width_not_64 : idBitWidth ≠ 64 := by
  decide

/-- C3: for every database state produced by a sequence of successful
register calls, `list()` returns exactly the registered accounts — the
public `{id, name, email}` projections, password hash omitted — in
ascending id order. -/
theorem list_returns_registered_sorted (eks : Nat → String → String → String)
    (reqs : List (CreateUserRequest × String)) :
    readUserViews ((runCreates eks reqs []).1) = (runCreates eks reqs []).2
    ∧ List.Chain' (fun a b : Int => a < b)
        ((readUserViews ((runCreates eks reqs []).1)).map (·.id)) := by
  obtain ⟨new, h1, h2, h3⟩ := runCreates_spec eks reqs []
  simp only [List.length_nil, Nat.zero_add] at h3
  have hall : (runCreates eks reqs []).1 = new := by
    rw [h1]
    rfl
  have hchain : List.Chain' (fun a b : User => a.id < b.id) new := by
    have hc := chain'_lt_castMap 1 reqs.length
    rw [← h3] at hc
    exact (List.chain'_map _).1 hc
  have hsort : sortById new = new :=
    sortById_of_sorted new (hchain.imp fun _ _ hab => le_of_lt hab)
  have hviews : readUserViews ((runCreates eks reqs []).1) = new.map publicView := by
    rw [hall, readUserViews, hsort]
  refine ⟨?_, ?_⟩
  · rw [hviews, h2]
  · rw [hviews, List.map_map]
    have : (new.map publicView).map (·.id) = new.map (·.id) := by
      rw [List.map_map]
      rfl
    rw [List.map_map] at this
    rw [this, h3]
    exact chain'_lt_castMap 1 reqs.length

/-- C9: `login` never changes the account store — whatever the outcome, it
only reads (the handler runs a single SELECT), so the database after the
call is the database before it. -/
theorem login_leaves_db_unchanged (mac : String → String → String)
    (eks : Nat → String → String → String) (db : Db)
    (e p : String) : (login mac eks db e p).1 = db := by
  unfold login
  split
  · rfl
  · split <;> rfl

/-- C10: on an empty store, `list()` succeeds and returns the empty
sequence, serialized as the empty JSON array, rather than failing. -/
theorem read_user_empty : read_user ([] : Db) = ([], "[]") := by
  decide

/-! ## Branch equations for `login` -/

lemma bcryptVerify_eq_map (eks : Nat → String → String → String)
    (p stored : String) :
    bcryptVerify eks p stored
      = (parseMcf stored).map
          (fun bh => decide (bh.digest = eks bh.cost bh.salt p)) := by
  unfold bcryptVerify
  cases parseMcf stored <;> rfl

lemma bcryptVerify_isSome (eks : Nat → String → String → String)
    (p stored : String) (h : (parseMcf stored).isSome = true) :
    ∃ b, bcryptVerify eks p stored = some b := by
  rw [bcryptVerify_eq_map]
  cases hp : parseMcf stored
  · rw [hp] at h
    cases h
  · exact ⟨_, rfl⟩

lemma login_eq_notFound (mac : String → String → String)
    (eks : Nat → String → String → String) (db : Db) (e p : String)
    (h : findByEmail db e = none) :
    login mac eks db e p = (db, some .notFound) := by
  unfold login
  rw [h]

lemma login_eq_found (mac : String → String → String)
    (eks : Nat → String → String → String) (db : Db) (e p : String)
    (u : User) (h : findByEmail db e = some u) :
    login mac eks db e p =
      (db, match bcryptVerify eks p u.password_hash with
        | none => none
        | some false => some .invalidPassword
        | some true => some (.token (jwtEncode mac "secret" (publicView u)))) := by
  unfold login
  rw [h]
  show (match bcryptVerify eks p u.password_hash with
    | none => (db, none)
    | some false => (db, some LoginOutcome.invalidPassword)
    | some true =>
      (db, some (LoginOutcome.token (jwtEncode mac "secret" (publicView u))))) = _
  cases bcryptVerify eks p u.password_hash
  · rfl
  · rename_i b
    cases b <;> rfl

lemma findByEmail_none (db : Db) (e : String)
    (h : findByEmail db e = none) : ∀ u ∈ db, u.email ≠ e := by
  intro u hu
  have := List.find?_eq_none.mp h u hu
  simpa using this

lemma findByEmail_some (db : Db) (e : String) (u : User)
    (h : findByEmail db e = some u) : u ∈ db ∧ u.email = e := by
  refine ⟨List.mem_of_find?_eq_some h, ?_⟩
  have := List.find?_some h
  simpa using this

/-- C1: `authenticate` succeeds (returns a token) iff an account with the
given email exists and its stored password hash verifies against the given
password; it fails with the NotFound outcome iff no account has that
email; it fails with the InvalidCredential outcome iff the account exists
but the password does not verify — never the other variant.  Hypotheses:
every stored hash is structurally well-formed (true of every database
produced by `create_user`) and emails are pairwise distinct (the uniqueness
the durable backend's schema enforces). -/
theorem authenticate_outcomes (mac : String → String → String)
    (eks : Nat → String → String → String) (db : Db) (e p : String)
    (hwf : ∀ u ∈ db, (parseMcf u.password_hash).isSome = true)
    (huniq : db.Pairwise (fun a b => a.email ≠ b.email)) :
    ((∃ t, (login mac eks db e p).2 = some (LoginOutcome.token t)) ↔
      ∃ u ∈ db, u.email = e ∧ bcryptVerify eks p u.password_hash = some true)
    ∧ ((login mac eks db e p).2 = some LoginOutcome.notFound ↔
      ∀ u ∈ db, u.email ≠ e)
    ∧ ((login mac eks db e p).2 = some LoginOutcome.invalidPassword ↔
      ∃ u ∈ db, u.email = e ∧ bcryptVerify eks p u.password_hash = some false) := by
  rcases hf : findByEmail db e with _ | u
  · have hne := findByEmail_none db e hf
    rw [login_eq_notFound mac eks db e p hf]
    refine ⟨⟨?_, ?_⟩, ⟨?_, ?_⟩, ⟨?_, ?_⟩⟩
    · rintro ⟨t, ht⟩
      simp at ht
    · rintro ⟨v, hv_mem, hv_email, -⟩
      exact absurd hv_email (hne v hv_mem)
    · intro _
      exact hne
    · intro _
      rfl
    · intro ht
      simp at ht
    · rintro ⟨v, hv_mem, hv_email, -⟩
      exact absurd hv_email (hne v hv_mem)
  · obtain ⟨hu_mem, hu_email⟩ := findByEmail_some db e u hf
    obtain ⟨b, hb⟩ := bcryptVerify_isSome eks p u.password_hash (hwf u hu_mem)
    rw [login_eq_found mac eks db e p u hf, hb]
    cases b
    · refine ⟨⟨?_, ?_⟩, ⟨?_, ?_⟩, ⟨?_, ?_⟩⟩
      · rintro ⟨t, ht⟩
        simp at ht
      · rintro ⟨v, hv_mem, hv_email, hv⟩
        have hvu : v = u :=
          email_unique huniq hv_mem hu_mem (hv_email.trans hu_email.symm)
        rw [hvu, hb] at hv
        simp at hv
      · intro ht
        simp at ht
      · intro hall
        exact absurd hu_email (hall u hu_mem)
      · intro _
        exact ⟨u, hu_mem, hu_email, hb⟩
      · intro _
        rfl
    · refine ⟨⟨?_, ?_⟩, ⟨?_, ?_⟩, ⟨?_, ?_⟩⟩
      · intro _
        exact ⟨u, hu_mem, hu_email, hb⟩
      · intro _
        exact ⟨jwtEncode mac "secret" (publicView u), rfl⟩
      · intro ht
        simp at ht
      · intro hall
        exact absurd hu_email (hall u hu_mem)
      · intro ht
        simp at ht
      · rintro ⟨v, hv_mem, hv_email, hv⟩
        have hvu : v = u :=
          email_unique huniq hv_mem hu_mem (hv_email.trans hu_email.symm)
        rw [hvu, hb] at hv
        simp at hv

/-- C1, witness: on the one-account database `db0`, the hypotheses hold
and `authenticate_outcomes` applies with Chad's email and password. -/
theorem authenticate_outcomes_witness :
    (∀ u ∈ db0, (parseMcf u.password_hash).isSome = true)
    ∧ db0.Pairwise (fun a b => a.email ≠ b.email)
    ∧ (((∃ t, (login mac0 eks0 db0 "chad@gmail.com" "password").2
          = some (LoginOutcome.token t)) ↔
        ∃ u ∈ db0, u.email = "chad@gmail.com"
          ∧ bcryptVerify eks0 "password" u.password_hash = some true)
      ∧ (((login mac0 eks0 db0 "chad@gmail.com" "password").2
          = some LoginOutcome.notFound) ↔
        ∀ u ∈ db0, u.email ≠ "chad@gmail.com")
      ∧ (((login mac0 eks0 db0 "chad@gmail.com" "password").2
          = some LoginOutcome.invalidPassword) ↔
        ∃ u ∈ db0, u.email = "chad@gmail.com"
          ∧ bcryptVerify eks0 "password" u.password_hash = some false)) :=
  ⟨by decide, by decide,
    authenticate_outcomes mac0 eks0 db0 "chad@gmail.com" "password"
      (by decide) (by decide)⟩

/-- C4: a token issued by a successful authenticate call, decoded and
signature-verified with the same key, yields claims exactly equal to the
authenticated account's public view: issue-then-verify round-trips. -/
theorem token_roundtrip (mac : String → String → String)
    (eks : Nat → String → String → String) (db : Db) (e p : String)
    (t : Token)
    (h : (login mac eks db e p).2 = some (LoginOutcome.token t)) :
    ∃ u, findByEmail db e = some u ∧ u.email = e ∧
      jwtVerify mac "secret" t = some (publicView u) := by
  rcases hf : findByEmail db e with _ | u
  · rw [login_eq_notFound mac eks db e p hf] at h
    simp at h
  · obtain ⟨hu_mem, hu_email⟩ := findByEmail_some db e u hf
    rw [login_eq_found mac eks db e p u hf] at h
    rcases hv : bcryptVerify eks p u.password_hash with _ | b
    · rw [hv] at h
      simp at h
    · rw [hv] at h
      cases b
      · simp at h
      · have ht : jwtEncode mac "secret" (publicView u) = t := by
          simpa using h
        refine ⟨u, rfl, hu_email, ?_⟩
        rw [← ht]
        simp [jwtVerify, jwtEncode]

/-- C4, witness: on `db0`, logging in as Chad yields the token over Chad's
public view, and it verifies back to that view. -/
theorem token_roundtrip_witness :
    ((login mac0 eks0 db0 "chad@gmail.com" "password").2
      = some (LoginOutcome.token
          (jwtEncode mac0 "secret" ⟨1, "Chad", "chad@gmail.com"⟩)))
    ∧ ∃ u, findByEmail db0 "chad@gmail.com" = some u
        ∧ u.email = "chad@gmail.com"
        ∧ jwtVerify mac0 "secret"
            (jwtEncode mac0 "secret" ⟨1, "Chad", "chad@gmail.com"⟩)
          = some (publicView u) :=
  ⟨by decide,
    token_roundtrip mac0 eks0 db0 "chad@gmail.com" "password"
      (jwtEncode mac0 "secret" ⟨1, "Chad", "chad@gmail.com"⟩) (by decide)⟩

/-- C5, counterexample to the claim as stated: with a structurally
malformed stored hash, `bcrypt::verify` returns an error and the
`.unwrap()` on line 95 of src/main.rs aborts the process (modelled by
`none`) instead of returning an explicit error result. -/
theorem login_panics_on_malformed_hash :
    (login mac0 eks0 [⟨1, "Chad", "chad@gmail.com", "garbage"⟩]
      "chad@gmail.com" "password").2 = none := by
  decide

/-- C5 (amended): `login` returns an explicit outcome for every input as
long as the stored hash of any account with the given email is
structurally well-formed; on a hashing failure (malformed stored hash) the
code aborts the process via `.unwrap()` instead of returning an error
(`create_user` and `read_user` likewise `.unwrap()` storage and
serialization failures, which lie outside the data model). -/
theorem login_explicit_outcome (mac : String → String → String)
    (eks : Nat → String → String → String) (db : Db) (e p : String)
    (hwf : ∀ u ∈ db, u.email = e → (parseMcf u.password_hash).isSome = true) :
    ((login mac eks db e p).2).isSome = true := by
  rcases hf : findByEmail db e with _ | u
  · rw [login_eq_notFound mac eks db e p hf]
    rfl
  · obtain ⟨hu_mem, hu_email⟩ := findByEmail_some db e u hf
    obtain ⟨b, hb⟩ :=
      bcryptVerify_isSome eks p u.password_hash (hwf u hu_mem hu_email)
    rw [login_eq_found mac eks db e p u hf, hb]
    cases b <;> rfl

/-- C5, witness: on `db0` the well-formedness hypothesis holds and `login`
returns an explicit outcome. -/
theorem login_explicit_outcome_witness :
    (∀ u ∈ db0, u.email = "chad@gmail.com" →
      (parseMcf u.password_hash).isSome = true)
    ∧ ((login mac0 eks0 db0 "chad@gmail.com" "wrong").2).isSome = true :=
  ⟨by decide,
    login_explicit_outcome mac0 eks0 db0 "chad@gmail.com" "wrong" (by decide)⟩

/-- C6: every token issued by a successful login is the three-part
structure (header, claims, signature) with the default HS256 header, a
claims segment of exactly the keys id, name, email — in particular no
issued-at (`iat`) and no expires-at (`exp`) claim — and a signature
computed by the (HMAC-SHA-256) MAC under the fixed hard-coded shared
secret `"secret"`. -/
theorem token_shape (mac : String → String → String)
    (eks : Nat → String → String → String) (db : Db) (e p : String)
    (t : Token)
    (h : (login mac eks db e p).2 = some (LoginOutcome.token t)) :
    t.header = defaultHeader
    ∧ (claimsJson t.claims).map Prod.fst = ["id", "name", "email"]
    ∧ (∀ k ∈ (claimsJson t.claims).map Prod.fst, k ≠ "exp" ∧ k ≠ "iat")
    ∧ t.signature = mac "secret" (signingInput t.header t.claims) := by
  rcases hf : findByEmail db e with _ | u
  · rw [login_eq_notFound mac eks db e p hf] at h
    simp at h
  · rw [login_eq_found mac eks db e p u hf] at h
    rcases hv : bcryptVerify eks p u.password_hash with _ | b
    · rw [hv] at h
      simp at h
    · rw [hv] at h
      cases b
      · simp at h
      · have ht : jwtEncode mac "secret" (publicView u) = t := by
          simpa using h
        rw [← ht]
        refine ⟨rfl, rfl, ?_, rfl⟩
        intro k hk
        have hkeys : (claimsJson
            (jwtEncode mac "secret" (publicView u)).claims).map Prod.fst
            = ["id", "name", "email"] := rfl
        rw [hkeys] at hk
        simp only [List.mem_cons, List.not_mem_nil, or_false] at hk
        rcases hk with rfl | rfl | rfl <;> exact ⟨by decide, by decide⟩

/-- C6, witness: the concrete token issued for Chad on `db0` has the
stated shape. -/
theorem token_shape_witness :
    ((login mac0 eks0 db0 "chad@gmail.com" "password").2
      = some (LoginOutcome.token
          (jwtEncode mac0 "secret" ⟨1, "Chad", "chad@gmail.com"⟩)))
    ∧ ((jwtEncode mac0 "secret"
          (⟨1, "Chad", "chad@gmail.com"⟩ : CreateUserResponse)).header
        = defaultHeader
      ∧ (claimsJson (jwtEncode mac0 "secret"
          (⟨1, "Chad", "chad@gmail.com"⟩ : CreateUserResponse)).claims).map
            Prod.fst = ["id", "name", "email"]
      ∧ (∀ k ∈ (claimsJson (jwtEncode mac0 "secret"
          (⟨1, "Chad", "chad@gmail.com"⟩ : CreateUserResponse)).claims).map
            Prod.fst, k ≠ "exp" ∧ k ≠ "iat")
      ∧ (jwtEncode mac0 "secret"
          (⟨1, "Chad", "chad@gmail.com"⟩ : CreateUserResponse)).signature
        = mac0 "secret" (signingInput
            (jwtEncode mac0 "secret"
              (⟨1, "Chad", "chad@gmail.com"⟩ : CreateUserResponse)).header
            (jwtEncode mac0 "secret"
              (⟨1, "Chad", "chad@gmail.com"⟩ : CreateUserResponse)).claims)) :=
  ⟨by decide,
    token_shape mac0 eks0 db0 "chad@gmail.com" "password"
      (jwtEncode mac0 "secret" ⟨1, "Chad", "chad@gmail.com"⟩) (by decide)⟩

/-- C7: verifying a plaintext against its own hash always succeeds; and
verifying `p` against `hash(q)` fails whenever the key-derivation core
maps `p` and `q` to different digests under the stored cost and salt —
for real bcrypt, equal digests for distinct plaintexts happen only with
negligible probability, which is the claim's "overwhelming probability"
qualifier.  The salt and the digests are assumed `$`-free, as real
bcrypt's base64-encoded salt and digest always are. -/
theorem hash_verify_correct (eks : Nat → String → String → String)
    (salt : String) (hs : '$' ∉ salt.data) :
    (∀ p, '$' ∉ (eks 10 salt p).data →
      bcryptVerify eks p (bcryptHash eks 10 salt p) = some true)
    ∧ (∀ p q, '$' ∉ (eks 10 salt q).data →
      eks 10 salt p ≠ eks 10 salt q →
      bcryptVerify eks p (bcryptHash eks 10 salt q) = some false) := by
  constructor
  · intro p hd
    exact bcryptVerify_hash_self eks salt p hs hd
  · intro p q hd hne
    rw [bcryptHash, bcryptVerify_eq_map, parseMcf_mcfEncode _ _ hs hd]
    simp only [Option.map_some', Option.some.injEq, decide_eq_false_iff_not]
    exact fun e => hne e.symm

/-- C7, witness: with the identity EKS core, "password" verifies against
its own hash, and "pw" does not verify against the hash of "qw". -/
theorem hash_verify_correct_witness :
    ('$' ∉ ("s" : String).data)
    ∧ bcryptVerify eks0 "password" (bcryptHash eks0 10 "s" "password")
        = some true
    ∧ bcryptVerify eks0 "pw" (bcryptHash eks0 10 "s" "qw") = some false :=
  ⟨by decide,
    (hash_verify_correct eks0 "s" (by decide)).1 "password" (by decide),
    (hash_verify_correct eks0 "s" (by decide)).2 "pw" "qw" (by decide)
      (by decide)⟩

/-- C8: `register` computes the stored password hash with the bcrypt work
factor fixed at cost 10 (the literal on line 65 of src/main.rs): the hash
stored for the newly created row parses back to cost exactly 10. -/
theorem register_hash_cost_10 (eks : Nat → String → String → String)
    (db : Db) (salt : String) (req : CreateUserRequest)
    (hs : '$' ∉ salt.data) (hd : '$' ∉ (eks 10 salt req.password).data) :
    ∃ u : User, ((create_user eks db salt req).1).getLast? = some u
      ∧ (parseMcf u.password_hash).map (fun bh => bh.cost) = some 10 := by
  refine ⟨⟨nextId db, req.name, req.email,
    bcryptHash eks 10 salt req.password⟩, ?_, ?_⟩
  · show (db ++ [_]).getLast? = _
    rw [List.getLast?_concat]
  · show (parseMcf (bcryptHash eks 10 salt req.password)).map _ = _
    rw [bcryptHash, parseMcf_mcfEncode _ _ hs hd]
    rfl

/-- C8, witness: registering Chad on the empty store with salt "s" stores
a hash whose parsed cost is 10. -/
theorem register_hash_cost_10_witness :
    ('$' ∉ ("s" : String).data)
    ∧ ('$' ∉ (eks0 10 "s" "password").data)
    ∧ ∃ u : User,
        ((create_user eks0 [] "s" ⟨"Chad", "chad@gmail.com", "password"⟩).1).getLast?
          = some u
        ∧ (parseMcf u.password_hash).map (fun bh => bh.cost) = some 10 :=
  ⟨by decide, by decide,
    register_hash_cost_10 eks0 [] "s" ⟨"Chad", "chad@gmail.com", "password"⟩
      (by decide) (by decide)⟩
